import Mathlib

/-
  Verification of the multi-level sequential approval state machine of the
  GENBETA form-workflow backend.

  The definitions below are a shallow embedding of the relevant controller
  functions:
  * processApproval  — src/controllers/approval.controller.js (processApproval)
  * createSubmission — src/controllers/submission.controller.js (createSubmission)
  * updateStatus     — src/controllers/submission.controller.js (updateStatus)
  * analytics        — src/controllers/submission.controller.js (getTemplateAnalytics)

  Identities are strings (ObjectId.toString comparisons in the source),
  timestamps are integers (milliseconds), and statuses are the raw status
  strings the source stores.
-/

namespace GenBeta

/-- One entry of a form's approval flow: a level bound to one approver.
    Mirrors the approvalFlow array elements of the Form model. -/
structure FlowEntry where
  level : Nat
  approverId : String
  deriving DecidableEq

/-- One element of a submission's approvalHistory array
    (FormSubmission model). -/
structure HistoryEntry where
  level : Nat
  approverId : String
  status : String
  comments : Option String
  actionedAt : Int
  deriving DecidableEq

/-- The fields of a FormSubmission document that the approval state machine
    reads or writes. -/
structure Submission where
  status : String
  currentLevel : Nat
  approvalHistory : List HistoryEntry
  data : String
  submittedAt : Int
  approvedAt : Option Int := none
  rejectedAt : Option Int := none
  approvedBy : Option String := none
  rejectedBy : Option String := none
  deriving DecidableEq

/-- Errors surfaced by processApproval. The source returns HTTP 403 with a
    message for both authorization failures; notFound models the 404 case. -/
inductive ApprovalError where
  | notFound
  | authorizationError (msg : String)
  deriving DecidableEq

/-- JS String.prototype.toUpperCase on the status strings of the source
    (all ASCII): uppercase every character. -/
def jsToUpper (s : String) : String := ⟨s.data.map Char.toUpper⟩

/-- JS String.prototype.toLowerCase on the status strings of the source
    (all ASCII): lowercase every character. -/
def jsToLower (s : String) : String := ⟨s.data.map Char.toLower⟩

/-- The `if (data) submission.data = data` step of processApproval: replace
    the payload when an edited payload is supplied (JS truthiness: an empty
    string is falsy and is ignored). -/
def withData (sub : Submission) (data : Option String) : Submission :=
  match data with
  | some d => if d = "" then sub else { sub with data := d }
  | none => sub

/-- The unconditional mutation part of processApproval, executed once the
    authorization checks have passed: optional payload replacement, one
    history push, then the REJECT branch (lowercased status == "rejected")
    or the approval branch (advance a level if one exists, otherwise final
    approval with the sentinel level flow.length + 1). -/
def applyAction (flow : List FlowEntry) (sub : Submission) (userId : String)
    (status : String) (comments : Option String) (data : Option String)
    (now : Int) : Submission :=
  let sub1 := withData sub data
  let entry : HistoryEntry :=
    { level := sub1.currentLevel
      approverId := userId
      status := jsToUpper status
      comments := comments
      actionedAt := now }
  let sub2 := { sub1 with approvalHistory := sub1.approvalHistory ++ [entry] }
  if jsToLower status = "rejected" then
    { sub2 with
      status := "REJECTED"
      rejectedAt := some now
      rejectedBy := some userId }
  else
    let nextLevel := sub2.currentLevel + 1
    match flow.find? (fun f => f.level == nextLevel) with
    | some _ => { sub2 with currentLevel := nextLevel, status := "PENDING_APPROVAL" }
    | none =>
      { sub2 with
        status := "APPROVED"
        approvedAt := some now
        approvedBy := some userId
        currentLevel := flow.length + 1 }

/-- processApproval of approval.controller.js, with the submission lookup,
    population and notification side effects abstracted away. An empty flow
    admits any caller; a non-empty flow requires the caller to be the approver
    bound to the entry found at the submission's currentLevel. -/
def processApproval (flow : List FlowEntry) (sub : Submission) (userId : String)
    (status : String) (comments : Option String) (data : Option String)
    (now : Int) : Except ApprovalError Submission :=
  if flow.length = 0 then
    Except.ok (applyAction flow sub userId status comments data now)
  else
    match flow.find? (fun f => f.level == sub.currentLevel) with
    | none =>
      Except.error (ApprovalError.authorizationError "No approver found for this level")
    | some currentApprover =>
      if currentApprover.approverId = userId then
        Except.ok (applyAction flow sub userId status comments data now)
      else
        Except.error
          (ApprovalError.authorizationError "You are not the authorized approver for this level")

/-- The state of the stored document after a processApproval call: the source
    only calls submission.save() on the success path, so on an error the
    stored submission is the unchanged input. -/
def savedSubmission (flow : List FlowEntry) (sub : Submission) (userId : String)
    (status : String) (comments : Option String) (data : Option String)
    (now : Int) : Submission :=
  match processApproval flow sub userId status comments data now with
  | Except.ok sub1 => sub1
  | Except.error _ => sub

/-- createSubmission of submission.controller.js (status and level logic).
    requestedStatus is req.body.status; `none` models an absent field and the
    JS || default also swallows the empty string. -/
def createSubmission (flow : List FlowEntry) (d : String)
    (requestedStatus : Option String) (now : Int) : Submission :=
  let requested :=
    match requestedStatus with
    | some s => if s = "" then "PENDING_APPROVAL" else s
    | none => "PENDING_APPROVAL"
  let hasFlow := flow.length > 0
  let finalStatus :=
    if requested ≠ "DRAFT" then
      (if hasFlow then "PENDING_APPROVAL" else "APPROVED")
    else requested
  { status := finalStatus
    currentLevel := if finalStatus = "PENDING_APPROVAL" then 1 else 0
    approvalHistory := []
    data := d
    submittedAt := now }

/-- updateStatus of submission.controller.js: uppercase the requested status,
    push one history entry at the submission's current level, set the
    approval/rejection stamp fields when the new status is APPROVED or
    REJECTED, and save. No flow lookup and no precondition on the current
    status are performed. -/
def updateStatus (sub : Submission) (status : String) (comments : Option String)
    (userId : String) (now : Int) : Submission :=
  let newStatus := jsToUpper status
  let entry : HistoryEntry :=
    { level := sub.currentLevel
      approverId := userId
      status := newStatus
      comments := some (comments.getD "")
      actionedAt := now }
  let sub1 :=
    { sub with
      approvalHistory := sub.approvalHistory ++ [entry]
      status := newStatus }
  if newStatus = "APPROVED" then
    { sub1 with approvedAt := some now, approvedBy := some userId }
  else if newStatus = "REJECTED" then
    { sub1 with rejectedAt := some now, rejectedBy := some userId }
  else sub1

/-- The authorization phase of processApproval succeeds for this caller:
    either the flow is empty (open policy of the source) or the entry found
    at the submission's currentLevel is bound to the caller. -/
def authorizedApprover (flow : List FlowEntry) (sub : Submission)
    (userId : String) : Prop :=
  flow = [] ∨
    ∃ fe, flow.find? (fun f => f.level == sub.currentLevel) = some fe ∧
      fe.approverId = userId

/- ==================== Analytics (getTemplateAnalytics) ==================== -/

/-- Per-level count of getTemplateAnalytics: submissions whose history holds
    some entry at this level with status APPROVED. -/
def approvedCountAtLevel (subs : List Submission) (level : Nat) : Nat :=
  (subs.filter (fun s =>
    s.approvalHistory.any (fun h => h.level == level && h.status == "APPROVED"))).length

/-- The levelStats array of getTemplateAnalytics: one (level, approved, total)
    triple for each level 1..totalLevels of the template's workflow. -/
def levelStats (subs : List Submission) (totalLevels : Nat) :
    List (Nat × Nat × Nat) :=
  (List.range totalLevels).map
    (fun i => (i + 1, approvedCountAtLevel subs (i + 1), subs.length))

/-- JS Math.round on the exact rational value: round half up. -/
def jsRound (q : ℚ) : ℤ := ⌊q + 1 / 2⌋

/-- Count of submissions with status APPROVED. -/
def approvedTotal (subs : List Submission) : Nat :=
  (subs.filter (fun s => s.status == "APPROVED")).length

/-- completionRate of getTemplateAnalytics:
    Math.round((approved / total) * 100), and 0 when there are no
    submissions. -/
def completionRate (subs : List Submission) : ℤ :=
  if subs.length > 0 then
    jsRound (((approvedTotal subs : ℚ) / (subs.length : ℚ)) * 100)
  else 0

/-- The approvedSubmissions filter of getTemplateAnalytics: status APPROVED
    and an approvedAt stamp present (submittedAt always exists in the model,
    as the schema defaults it). -/
def approvedWithTimestamps (subs : List Submission) : List Submission :=
  subs.filter (fun s => s.status == "APPROVED" && s.approvedAt.isSome)

/-- avgApprovalTimeMs of getTemplateAnalytics: total approval duration over
    the approved submissions divided by their count, 0 when there are none. -/
def avgApprovalTimeMs (subs : List Submission) : ℚ :=
  let asubs := approvedWithTimestamps subs
  if asubs.length > 0 then
    (((asubs.map (fun s => s.approvedAt.getD 0 - s.submittedAt)).sum : ℤ) : ℚ)
      / (asubs.length : ℚ)
  else 0

/- ======= Spec-side restatements of the analytics (for refinement) ======= -/

/-- Stated from the spec: the number of submissions whose approvalHistory
    contains an entry with this level and status APPROVED. -/
def specApprovedCountAtLevel (subs : List Submission) (level : Nat) : Nat :=
  subs.countP (fun s =>
    decide (∃ h ∈ s.approvalHistory, h.level = level ∧ h.status = "APPROVED"))

/-- Stated from the spec: completion rate as the ratio of approved
    submissions over all submissions. -/
def specCompletionRatio (subs : List Submission) : ℚ :=
  (approvedTotal subs : ℚ) / (subs.length : ℚ)

/-- Stated from the spec: the approval durations approvedAt - submittedAt of
    the approved submissions. -/
def specDurations (subs : List Submission) : List ℚ :=
  (approvedWithTimestamps subs).map
    (fun s => ((s.approvedAt.getD 0 : ℚ) - (s.submittedAt : ℚ)))

/-- Stated from the spec: the mean approval duration over approved
    submissions only. -/
def specMeanDuration (subs : List Submission) : ℚ :=
  (specDurations subs).sum / ((specDurations subs).length : ℚ)

/- ==================== Helper lemmas ==================== -/

@[simp] theorem withData_currentLevel (sub : Submission) (d : Option String) :
    (withData sub d).currentLevel = sub.currentLevel := by
  cases d with
  | none => rfl
  | some v =>
    by_cases h : v = "" <;> simp [withData, h]

@[simp] theorem withData_approvalHistory (sub : Submission) (d : Option String) :
    (withData sub d).approvalHistory = sub.approvalHistory := by
  cases d with
  | none => rfl
  | some v =>
    by_cases h : v = "" <;> simp [withData, h]

theorem processApproval_ok_of_find (flow : List FlowEntry) (sub : Submission)
    (userId status : String) (comments d : Option String) (now : Int)
    (fe : FlowEntry)
    (hfind : flow.find? (fun f => f.level == sub.currentLevel) = some fe)
    (hfe : fe.approverId = userId) :
    processApproval flow sub userId status comments d now =
      Except.ok (applyAction flow sub userId status comments d now) := by
  have hne : ¬ flow.length = 0 := by
    intro h0
    rw [List.length_eq_zero] at h0
    subst h0
    simp at hfind
  simp [processApproval, hne, hfind, hfe]

theorem processApproval_ok_of_authorized (flow : List FlowEntry)
    (sub : Submission) (userId status : String) (comments d : Option String)
    (now : Int) (hauth : authorizedApprover flow sub userId) :
    processApproval flow sub userId status comments d now =
      Except.ok (applyAction flow sub userId status comments d now) := by
  rcases hauth with h | ⟨fe, hfind, hfe⟩
  · subst h
    simp [processApproval]
  · exact processApproval_ok_of_find flow sub userId status comments d now fe hfind hfe

theorem applyAction_rejected_fields (flow : List FlowEntry) (sub : Submission)
    (userId status : String) (comments d : Option String) (now : Int)
    (hlow : jsToLower status = "rejected") :
    (applyAction flow sub userId status comments d now).approvalHistory =
      sub.approvalHistory ++ [⟨sub.currentLevel, userId, jsToUpper status, comments, now⟩] ∧
    (applyAction flow sub userId status comments d now).status = "REJECTED" ∧
    (applyAction flow sub userId status comments d now).rejectedAt = some now ∧
    (applyAction flow sub userId status comments d now).rejectedBy = some userId ∧
    (applyAction flow sub userId status comments d now).currentLevel = sub.currentLevel := by
  simp [applyAction, hlow]

theorem applyAction_advance_fields (flow : List FlowEntry) (sub : Submission)
    (userId status : String) (comments d : Option String) (now : Int)
    (g : FlowEntry)
    (hlow : ¬ jsToLower status = "rejected")
    (hnext : flow.find? (fun f => f.level == sub.currentLevel + 1) = some g) :
    (applyAction flow sub userId status comments d now).approvalHistory =
      sub.approvalHistory ++ [⟨sub.currentLevel, userId, jsToUpper status, comments, now⟩] ∧
    (applyAction flow sub userId status comments d now).currentLevel = sub.currentLevel + 1 ∧
    (applyAction flow sub userId status comments d now).status = "PENDING_APPROVAL" := by
  simp [applyAction, hlow, hnext]

theorem applyAction_final_fields (flow : List FlowEntry) (sub : Submission)
    (userId status : String) (comments d : Option String) (now : Int)
    (hlow : ¬ jsToLower status = "rejected")
    (hnext : flow.find? (fun f => f.level == sub.currentLevel + 1) = none) :
    (applyAction flow sub userId status comments d now).approvalHistory =
      sub.approvalHistory ++ [⟨sub.currentLevel, userId, jsToUpper status, comments, now⟩] ∧
    (applyAction flow sub userId status comments d now).status = "APPROVED" ∧
    (applyAction flow sub userId status comments d now).approvedAt = some now ∧
    (applyAction flow sub userId status comments d now).approvedBy = some userId ∧
    (applyAction flow sub userId status comments d now).currentLevel = flow.length + 1 := by
  simp [applyAction, hlow, hnext]

theorem find?_level_none (flow : List FlowEntry) (n : Nat) :
    flow.find? (fun f => f.level == n) = none ↔ ¬ ∃ g ∈ flow, g.level = n := by
  rw [List.find?_eq_none]
  simp

/- ==================== Claim theorems ==================== -/

/-- C1: on a submission whose flow is non-empty and whose actor is the
approver bound to the current level, an APPROVE action appends exactly one
history entry (level = currentLevel, approverId = actor, status APPROVED,
the given comments, actionedAt = now); then, if a level currentLevel + 1
exists in the flow, currentLevel becomes currentLevel + 1 with status
PENDING_APPROVAL, and otherwise status becomes APPROVED with approvedAt =
now, approvedBy = actor and currentLevel = flow.length + 1. -/
theorem approve_advances_or_finalizes
    (flow : List FlowEntry) (sub : Submission) (userId s : String)
    (comments d : Option String) (now : Int) (fe : FlowEntry)
    (hfind : flow.find? (fun f => f.level == sub.currentLevel) = some fe)
    (hfe : fe.approverId = userId)
    (hlow : ¬ jsToLower s = "rejected") (hup : jsToUpper s = "APPROVED") :
    ∃ sub1,
      processApproval flow sub userId s comments d now = Except.ok sub1 ∧
      sub1.approvalHistory = sub.approvalHistory ++
        [⟨sub.currentLevel, userId, "APPROVED", comments, now⟩] ∧
      ((∃ g ∈ flow, g.level = sub.currentLevel + 1) →
        sub1.currentLevel = sub.currentLevel + 1 ∧
        sub1.status = "PENDING_APPROVAL") ∧
      ((¬ ∃ g ∈ flow, g.level = sub.currentLevel + 1) →
        sub1.status = "APPROVED" ∧ sub1.approvedAt = some now ∧
        sub1.approvedBy = some userId ∧
        sub1.currentLevel = flow.length + 1) := by
  refine ⟨applyAction flow sub userId s comments d now,
    processApproval_ok_of_find flow sub userId s comments d now fe hfind hfe, ?_⟩
  cases hnext : flow.find? (fun f => f.level == sub.currentLevel + 1) with
  | none =>
    obtain ⟨h1, h2, h3, h4, h5⟩ :=
      applyAction_final_fields flow sub userId s comments d now hlow hnext
    refine ⟨by rw [h1, hup], ?_, fun _ => ⟨h2, h3, h4, h5⟩⟩
    intro hex
    exact absurd hex ((find?_level_none flow (sub.currentLevel + 1)).mp hnext)
  | some g =>
    obtain ⟨h1, h2, h3⟩ :=
      applyAction_advance_fields flow sub userId s comments d now g hlow hnext
    refine ⟨by rw [h1, hup], fun _ => ⟨h2, h3⟩, ?_⟩
    intro hne
    have hg : g.level = sub.currentLevel + 1 := by
      simpa using List.find?_some hnext
    exact absurd ⟨g, List.mem_of_find?_eq_some hnext, hg⟩ hne

/-- Witness for C1: level-1 approver A approves on a two-level flow. -/
theorem approve_advances_or_finalizes_witness :
    ∃ sub1,
      processApproval [⟨1, "A"⟩, ⟨2, "B"⟩]
          { status := "PENDING_APPROVAL"
            currentLevel := 1
            approvalHistory := []
            data := "d"
            submittedAt := 0 }
          "A" "APPROVED" none none 7 = Except.ok sub1 ∧
      sub1.approvalHistory = [⟨1, "A", "APPROVED", none, 7⟩] ∧
      ((∃ g ∈ [(⟨1, "A"⟩ : FlowEntry), ⟨2, "B"⟩], g.level = 2) →
        sub1.currentLevel = 2 ∧ sub1.status = "PENDING_APPROVAL") ∧
      ((¬ ∃ g ∈ [(⟨1, "A"⟩ : FlowEntry), ⟨2, "B"⟩], g.level = 2) →
        sub1.status = "APPROVED" ∧ sub1.approvedAt = some 7 ∧
        sub1.approvedBy = some "A" ∧ sub1.currentLevel = 3) :=
  approve_advances_or_finalizes [⟨1, "A"⟩, ⟨2, "B"⟩]
    { status := "PENDING_APPROVAL", currentLevel := 1, approvalHistory := [],
      data := "d", submittedAt := 0 }
    "A" "APPROVED" none none 7 ⟨1, "A"⟩ (by decide) rfl (by decide) (by decide)

/-- C2: whenever the acting approver is authorized, a REJECT action appends
exactly one history entry (level = currentLevel, approverId = actor, status
REJECTED, the given comments, actionedAt = now), sets status REJECTED with
rejectedAt = now and rejectedBy = actor, and leaves currentLevel unchanged. -/
theorem reject_terminalizes
    (flow : List FlowEntry) (sub : Submission) (userId s : String)
    (comments d : Option String) (now : Int)
    (hauth : authorizedApprover flow sub userId)
    (hlow : jsToLower s = "rejected") (hup : jsToUpper s = "REJECTED") :
    ∃ sub1,
      processApproval flow sub userId s comments d now = Except.ok sub1 ∧
      sub1.approvalHistory = sub.approvalHistory ++
        [⟨sub.currentLevel, userId, "REJECTED", comments, now⟩] ∧
      sub1.status = "REJECTED" ∧
      sub1.rejectedAt = some now ∧
      sub1.rejectedBy = some userId ∧
      sub1.currentLevel = sub.currentLevel := by
  obtain ⟨h1, h2, h3, h4, h5⟩ :=
    applyAction_rejected_fields flow sub userId s comments d now hlow
  exact ⟨applyAction flow sub userId s comments d now,
    processApproval_ok_of_authorized flow sub userId s comments d now hauth,
    by rw [h1, hup], h2, h3, h4, h5⟩

/-- Witness for C2: level-1 approver A rejects on a one-level flow. -/
theorem reject_terminalizes_witness :
    ∃ sub1,
      processApproval [⟨1, "A"⟩]
          { status := "PENDING_APPROVAL"
            currentLevel := 1
            approvalHistory := []
            data := "d"
            submittedAt := 0 }
          "A" "rejected" (some "no") none 4 = Except.ok sub1 ∧
      sub1.approvalHistory = [⟨1, "A", "REJECTED", some "no", 4⟩] ∧
      sub1.status = "REJECTED" ∧
      sub1.rejectedAt = some 4 ∧
      sub1.rejectedBy = some "A" ∧
      sub1.currentLevel = 1 :=
  reject_terminalizes [⟨1, "A"⟩]
    { status := "PENDING_APPROVAL", currentLevel := 1, approvalHistory := [],
      data := "d", submittedAt := 0 }
    "A" "rejected" (some "no") none 4
    (Or.inr ⟨⟨1, "A"⟩, by decide, rfl⟩) (by decide) (by decide)

/-- C3: on a non-empty flow, an actor different from the approver bound to
the flow entry found at the submission's currentLevel gets the authorization
error and the stored submission is the unchanged input (nothing is saved on
the error path). -/
theorem unauthorized_actor_rejected_unsaved
    (flow : List FlowEntry) (sub : Submission) (userId s : String)
    (comments d : Option String) (now : Int) (fe : FlowEntry)
    (hfind : flow.find? (fun f => f.level == sub.currentLevel) = some fe)
    (hne : ¬ fe.approverId = userId) :
    processApproval flow sub userId s comments d now =
      Except.error (ApprovalError.authorizationError
        "You are not the authorized approver for this level") ∧
    savedSubmission flow sub userId s comments d now = sub := by
  have hlen : ¬ flow.length = 0 := by
    intro h0
    rw [List.length_eq_zero] at h0
    subst h0
    simp at hfind
  have h : processApproval flow sub userId s comments d now =
      Except.error (ApprovalError.authorizationError
        "You are not the authorized approver for this level") := by
    simp [processApproval, hlen, hfind, hne]
  exact ⟨h, by simp [savedSubmission, h]⟩

/-- Witness for C3: B acts while level 1 is bound to A. -/
theorem unauthorized_actor_rejected_unsaved_witness :
    processApproval [⟨1, "A"⟩]
        { status := "PENDING_APPROVAL"
          currentLevel := 1
          approvalHistory := []
          data := "d"
          submittedAt := 0 }
        "B" "APPROVED" none none 4 =
      Except.error (ApprovalError.authorizationError
        "You are not the authorized approver for this level") ∧
    savedSubmission [⟨1, "A"⟩]
        { status := "PENDING_APPROVAL"
          currentLevel := 1
          approvalHistory := []
          data := "d"
          submittedAt := 0 }
        "B" "APPROVED" none none 4 =
      { status := "PENDING_APPROVAL"
        currentLevel := 1
        approvalHistory := []
        data := "d"
        submittedAt := 0 } :=
  unauthorized_actor_rejected_unsaved [⟨1, "A"⟩]
    { status := "PENDING_APPROVAL", currentLevel := 1, approvalHistory := [],
      data := "d", submittedAt := 0 }
    "B" "APPROVED" none none 4 ⟨1, "A"⟩ (by decide) (by decide)

/-- C4: evaluation at the failing input. processApproval has no terminal-state
check: on a submission already REJECTED at level 1 of a one-level flow, a
further APPROVED action by the level-1 approver is accepted, appends a second
history entry, and flips the status to APPROVED (with the rejection stamps
still in place), where the claim requires a ValidationError and an unchanged
submission. -/
theorem processApproval_accepts_action_after_reject :
    ∃ sub1,
      processApproval [⟨1, "A"⟩]
          { status := "REJECTED"
            currentLevel := 1
            approvalHistory := [⟨1, "A", "REJECTED", none, 5⟩]
            data := "d"
            submittedAt := 0
            rejectedAt := some 5
            rejectedBy := some "A" }
          "A" "APPROVED" none none 10 = Except.ok sub1 ∧
      sub1.status = "APPROVED" ∧
      sub1.approvalHistory.length = 2 ∧
      sub1.rejectedAt = some 5 :=
  ⟨_, rfl, by decide, by decide, by decide⟩

/-- C5: createSubmission establishes the workflow-consistent initial state:
requested status DRAFT gives status DRAFT with currentLevel 0 and no history;
otherwise a non-empty flow gives PENDING_APPROVAL at currentLevel 1, and an
empty flow gives APPROVED at currentLevel 0 with no history. -/
theorem createSubmission_initial_state (flow : List FlowEntry) (d : String)
    (rs : Option String) (now : Int) :
    (rs = some "DRAFT" →
      (createSubmission flow d rs now).status = "DRAFT" ∧
      (createSubmission flow d rs now).currentLevel = 0 ∧
      (createSubmission flow d rs now).approvalHistory = []) ∧
    (¬ rs = some "DRAFT" →
      (¬ flow = [] →
        (createSubmission flow d rs now).status = "PENDING_APPROVAL" ∧
        (createSubmission flow d rs now).currentLevel = 1) ∧
      (flow = [] →
        (createSubmission flow d rs now).status = "APPROVED" ∧
        (createSubmission flow d rs now).currentLevel = 0 ∧
        (createSubmission flow d rs now).approvalHistory = [])) := by
  constructor
  · rintro rfl
    simp [createSubmission]
  · intro hrs
    rcases rs with _ | s
    · constructor
      · intro hf
        have hlen : 0 < flow.length := List.length_pos.mpr hf
        simp [createSubmission, hlen]
      · rintro rfl
        simp [createSubmission]
    · have hsD : ¬ s = "DRAFT" := fun hd => hrs (by rw [hd])
      by_cases hs : s = ""
      · constructor
        · intro hf
          have hlen : 0 < flow.length := List.length_pos.mpr hf
          simp [createSubmission, hs, hlen]
        · rintro rfl
          simp [createSubmission, hs]
      · constructor
        · intro hf
          have hlen : 0 < flow.length := List.length_pos.mpr hf
          simp [createSubmission, hs, hsD, hlen]
        · rintro rfl
          simp [createSubmission, hs, hsD]

/-- Witness for C5 at the three concrete cases: a DRAFT request, a non-DRAFT
request on a one-level flow, and a non-DRAFT request on an empty flow. -/
theorem createSubmission_initial_state_witness :
    ((createSubmission [⟨1, "A"⟩] "d" (some "DRAFT") 0).status = "DRAFT" ∧
     (createSubmission [⟨1, "A"⟩] "d" (some "DRAFT") 0).currentLevel = 0 ∧
     (createSubmission [⟨1, "A"⟩] "d" (some "DRAFT") 0).approvalHistory = []) ∧
    ((createSubmission [⟨1, "A"⟩] "d" none 0).status = "PENDING_APPROVAL" ∧
     (createSubmission [⟨1, "A"⟩] "d" none 0).currentLevel = 1) ∧
    ((createSubmission [] "d" (some "SUBMITTED") 0).status = "APPROVED" ∧
     (createSubmission [] "d" (some "SUBMITTED") 0).currentLevel = 0 ∧
     (createSubmission [] "d" (some "SUBMITTED") 0).approvalHistory = []) :=
  ⟨(createSubmission_initial_state [⟨1, "A"⟩] "d" (some "DRAFT") 0).1 rfl,
   ((createSubmission_initial_state [⟨1, "A"⟩] "d" none 0).2 (by decide)).1 (by decide),
   ((createSubmission_initial_state [] "d" (some "SUBMITTED") 0).2 (by decide)).2 rfl⟩

/-- C6: on a non-empty flow with no entry at the submission's currentLevel
(for example after the flow was mutated), processApproval fails closed with
the authorization error and the stored submission is the unchanged input:
no auto-advance, no history append, no status or level change. -/
theorem missing_level_fails_closed
    (flow : List FlowEntry) (sub : Submission) (userId s : String)
    (comments d : Option String) (now : Int)
    (hflow : ¬ flow = [])
    (hmiss : ∀ fe ∈ flow, ¬ fe.level = sub.currentLevel) :
    processApproval flow sub userId s comments d now =
      Except.error (ApprovalError.authorizationError
        "No approver found for this level") ∧
    savedSubmission flow sub userId s comments d now = sub := by
  have hfind : flow.find? (fun f => f.level == sub.currentLevel) = none := by
    rw [List.find?_eq_none]
    intro x hx
    simpa using hmiss x hx
  have hlen : ¬ flow.length = 0 := by
    intro h0
    exact hflow (List.length_eq_zero.mp h0)
  have h : processApproval flow sub userId s comments d now =
      Except.error (ApprovalError.authorizationError
        "No approver found for this level") := by
    simp [processApproval, hlen, hfind]
  exact ⟨h, by simp [savedSubmission, h]⟩

/-- Witness for C6: the flow kept only level 2 while the submission still
points at level 1. -/
theorem missing_level_fails_closed_witness :
    processApproval [⟨2, "B"⟩]
        { status := "PENDING_APPROVAL"
          currentLevel := 1
          approvalHistory := []
          data := "d"
          submittedAt := 0 }
        "B" "APPROVED" none none 4 =
      Except.error (ApprovalError.authorizationError
        "No approver found for this level") ∧
    savedSubmission [⟨2, "B"⟩]
        { status := "PENDING_APPROVAL"
          currentLevel := 1
          approvalHistory := []
          data := "d"
          submittedAt := 0 }
        "B" "APPROVED" none none 4 =
      { status := "PENDING_APPROVAL"
        currentLevel := 1
        approvalHistory := []
        data := "d"
        submittedAt := 0 } :=
  missing_level_fails_closed [⟨2, "B"⟩]
    { status := "PENDING_APPROVAL", currentLevel := 1, approvalHistory := [],
      data := "d", submittedAt := 0 }
    "B" "APPROVED" none none 4 (by decide) (by decide)

/-- C7: one successful processApproval step keeps the lifetime invariants:
currentLevel never decreases, the history is extended by exactly one entry
(the old entries untouched, so the history is append-only and its length
counts the actions taken), and the appended entry's level is the
currentLevel at the time of the action. The two premises are the flow
invariant of the data model (each level is at most the flow length, which
contiguity 1..N implies) and the reachable-state bound for flow-less
submissions (createSubmission starts them at level 0 and actions keep them
at level at most 1). -/
theorem processApproval_step_invariants
    (flow : List FlowEntry) (sub : Submission) (userId s : String)
    (comments d : Option String) (now : Int) (sub1 : Submission)
    (hbound : ∀ fe ∈ flow, fe.level ≤ flow.length)
    (hempty : flow = [] → sub.currentLevel ≤ 1)
    (hok : processApproval flow sub userId s comments d now = Except.ok sub1) :
    sub.currentLevel ≤ sub1.currentLevel ∧
    sub1.approvalHistory = sub.approvalHistory ++
      [⟨sub.currentLevel, userId, jsToUpper s, comments, now⟩] ∧
    sub1.approvalHistory.length = sub.approvalHistory.length + 1 := by
  by_cases hlen : flow.length = 0
  · have hnil : flow = [] := List.length_eq_zero.mp hlen
    subst hnil
    simp only [processApproval, List.length_nil, reduceIte, Except.ok.injEq] at hok
    subst hok
    by_cases hlow : jsToLower s = "rejected"
    · obtain ⟨h1, _, _, _, h5⟩ :=
        applyAction_rejected_fields [] sub userId s comments d now hlow
      exact ⟨le_of_eq h5.symm, h1, by rw [h1]; simp⟩
    · obtain ⟨h1, _, _, _, h5⟩ :=
        applyAction_final_fields [] sub userId s comments d now hlow rfl
      refine ⟨?_, h1, by rw [h1]; simp⟩
      rw [h5]
      simpa using hempty rfl
  · rcases hfind : flow.find? (fun f => f.level == sub.currentLevel) with _ | fe
    · simp [processApproval, hlen, hfind] at hok
    · by_cases hfe : fe.approverId = userId
      · have heq := processApproval_ok_of_find flow sub userId s comments d now fe hfind hfe
        rw [heq, Except.ok.injEq] at hok
        subst hok
        have hmem : fe ∈ flow := List.mem_of_find?_eq_some hfind
        have hlev : fe.level = sub.currentLevel := by
          simpa using List.find?_some hfind
        have hle : sub.currentLevel ≤ flow.length := hlev ▸ hbound fe hmem
        by_cases hlow : jsToLower s = "rejected"
        · obtain ⟨h1, _, _, _, h5⟩ :=
            applyAction_rejected_fields flow sub userId s comments d now hlow
          exact ⟨le_of_eq h5.symm, h1, by rw [h1]; simp⟩
        · rcases hnext : flow.find? (fun f => f.level == sub.currentLevel + 1)
            with _ | g
          · obtain ⟨h1, _, _, _, h5⟩ :=
              applyAction_final_fields flow sub userId s comments d now hlow hnext
            exact ⟨h5 ▸ Nat.le_succ_of_le hle, h1, by rw [h1]; simp⟩
          · obtain ⟨h1, h2, _⟩ :=
              applyAction_advance_fields flow sub userId s comments d now g hlow hnext
            exact ⟨h2 ▸ Nat.le_succ _, h1, by rw [h1]; simp⟩
      · simp [processApproval, hlen, hfind, hfe] at hok

/-- Witness for C7: the final approval step on a one-level flow. -/
theorem processApproval_step_invariants_witness :
    (1 : Nat) ≤ 2 ∧
    [(⟨1, "A", "APPROVED", none, 7⟩ : HistoryEntry)] =
      [] ++ [⟨1, "A", jsToUpper "APPROVED", none, 7⟩] ∧
    ([(⟨1, "A", "APPROVED", none, 7⟩ : HistoryEntry)]).length = 0 + 1 :=
  processApproval_step_invariants [⟨1, "A"⟩]
    { status := "PENDING_APPROVAL", currentLevel := 1, approvalHistory := [],
      data := "d", submittedAt := 0 }
    "A" "APPROVED" none none 7
    { status := "APPROVED", currentLevel := 2,
      approvalHistory := [⟨1, "A", "APPROVED", none, 7⟩],
      data := "d", submittedAt := 0, approvedAt := some 7, approvedBy := some "A" }
    (by decide) (by decide) rfl

/-- C9: the action is classified solely by the case-insensitive comparison of
the supplied status string with the word rejected: any authorized call whose
status lowercases to something else — not only a variant of approved — takes
the approval path (level advance or terminal APPROVED), and the appended
history entry records the uppercased input string as its status. -/
theorem nonrejected_status_takes_approve_path
    (flow : List FlowEntry) (sub : Submission) (userId s : String)
    (comments d : Option String) (now : Int)
    (hauth : authorizedApprover flow sub userId)
    (hlow : ¬ jsToLower s = "rejected") :
    ∃ sub1,
      processApproval flow sub userId s comments d now = Except.ok sub1 ∧
      sub1.approvalHistory = sub.approvalHistory ++
        [⟨sub.currentLevel, userId, jsToUpper s, comments, now⟩] ∧
      ((∃ g ∈ flow, g.level = sub.currentLevel + 1) →
        sub1.currentLevel = sub.currentLevel + 1 ∧
        sub1.status = "PENDING_APPROVAL") ∧
      ((¬ ∃ g ∈ flow, g.level = sub.currentLevel + 1) →
        sub1.status = "APPROVED" ∧ sub1.currentLevel = flow.length + 1 ∧
        sub1.approvedAt = some now ∧ sub1.approvedBy = some userId) := by
  refine ⟨applyAction flow sub userId s comments d now,
    processApproval_ok_of_authorized flow sub userId s comments d now hauth, ?_⟩
  cases hnext : flow.find? (fun f => f.level == sub.currentLevel + 1) with
  | none =>
    obtain ⟨h1, h2, h3, h4, h5⟩ :=
      applyAction_final_fields flow sub userId s comments d now hlow hnext
    refine ⟨h1, ?_, fun _ => ⟨h2, h5, h3, h4⟩⟩
    intro hex
    exact absurd hex ((find?_level_none flow (sub.currentLevel + 1)).mp hnext)
  | some g =>
    obtain ⟨h1, h2, h3⟩ :=
      applyAction_advance_fields flow sub userId s comments d now g hlow hnext
    refine ⟨h1, fun _ => ⟨h2, h3⟩, ?_⟩
    intro hne
    have hg : g.level = sub.currentLevel + 1 := by
      simpa using List.find?_some hnext
    exact absurd ⟨g, List.mem_of_find?_eq_some hnext, hg⟩ hne

/-- Witness for C9: the arbitrary status string Banana on a one-level flow is
treated as an approval and recorded uppercased. -/
theorem nonrejected_status_takes_approve_path_witness :
    ∃ sub1,
      processApproval [⟨1, "A"⟩]
          { status := "PENDING_APPROVAL"
            currentLevel := 1
            approvalHistory := []
            data := "d"
            submittedAt := 0 }
          "A" "Banana" none none 7 = Except.ok sub1 ∧
      sub1.approvalHistory = [⟨1, "A", jsToUpper "Banana", none, 7⟩] ∧
      ((∃ g ∈ [(⟨1, "A"⟩ : FlowEntry)], g.level = 2) →
        sub1.currentLevel = 2 ∧ sub1.status = "PENDING_APPROVAL") ∧
      ((¬ ∃ g ∈ [(⟨1, "A"⟩ : FlowEntry)], g.level = 2) →
        sub1.status = "APPROVED" ∧ sub1.currentLevel = 2 ∧
        sub1.approvedAt = some 7 ∧ sub1.approvedBy = some "A") :=
  nonrejected_status_takes_approve_path [⟨1, "A"⟩]
    { status := "PENDING_APPROVAL", currentLevel := 1, approvalHistory := [],
      data := "d", submittedAt := 0 }
    "A" "Banana" none none 7
    (Or.inr ⟨⟨1, "A"⟩, by decide, rfl⟩) (by decide)

/-- C10: updateStatus is a second mutation path that bypasses the approval
state machine: for every existing submission and caller it sets the status to
the uppercased requested value, appends one history entry at the submission's
currentLevel, stamps approvedAt/approvedBy or rejectedAt/rejectedBy when the
new status is APPROVED or REJECTED, performs no flow authorization and no
terminal-state check (it is total in the submission and the caller), and
leaves currentLevel unchanged. -/
theorem updateStatus_bypasses_state_machine
    (sub : Submission) (s : String) (comments : Option String)
    (userId : String) (now : Int) :
    (updateStatus sub s comments userId now).status = jsToUpper s ∧
    (updateStatus sub s comments userId now).approvalHistory =
      sub.approvalHistory ++
        [⟨sub.currentLevel, userId, jsToUpper s, some (comments.getD ""), now⟩] ∧
    (updateStatus sub s comments userId now).currentLevel = sub.currentLevel ∧
    (jsToUpper s = "APPROVED" →
      (updateStatus sub s comments userId now).approvedAt = some now ∧
      (updateStatus sub s comments userId now).approvedBy = some userId) ∧
    (jsToUpper s = "REJECTED" →
      (updateStatus sub s comments userId now).rejectedAt = some now ∧
      (updateStatus sub s comments userId now).rejectedBy = some userId) := by
  by_cases hA : jsToUpper s = "APPROVED"
  · simp [updateStatus, hA]
  · by_cases hR : jsToUpper s = "REJECTED"
    · simp [updateStatus, hA, hR]
    · simp [updateStatus, hA, hR]

/-- Witness for C10: an arbitrary caller re-approves an already rejected
submission through updateStatus. -/
theorem updateStatus_bypasses_state_machine_witness :
    (updateStatus { status := "REJECTED", currentLevel := 1, approvalHistory := [], data := "", submittedAt := 0 } "approved" none "Z" 9).status = jsToUpper "approved" ∧
    (updateStatus { status := "REJECTED", currentLevel := 1, approvalHistory := [], data := "", submittedAt := 0 } "approved" none "Z" 9).approvalHistory =
      [] ++ [⟨1, "Z", jsToUpper "approved", some "", 9⟩] ∧
    (updateStatus { status := "REJECTED", currentLevel := 1, approvalHistory := [], data := "", submittedAt := 0 } "approved" none "Z" 9).currentLevel = 1 ∧
    (jsToUpper "approved" = "APPROVED" →
      (updateStatus { status := "REJECTED", currentLevel := 1, approvalHistory := [], data := "", submittedAt := 0 } "approved" none "Z" 9).approvedAt = some 9 ∧
      (updateStatus { status := "REJECTED", currentLevel := 1, approvalHistory := [], data := "", submittedAt := 0 } "approved" none "Z" 9).approvedBy = some "Z") ∧
    (jsToUpper "approved" = "REJECTED" →
      (updateStatus { status := "REJECTED", currentLevel := 1, approvalHistory := [], data := "", submittedAt := 0 } "approved" none "Z" 9).rejectedAt = some 9 ∧
      (updateStatus { status := "REJECTED", currentLevel := 1, approvalHistory := [], data := "", submittedAt := 0 } "approved" none "Z" 9).rejectedBy = some "Z") :=
  updateStatus_bypasses_state_machine
    { status := "REJECTED", currentLevel := 1, approvalHistory := [], data := "", submittedAt := 0 }
    "approved" none "Z" 9

/-- C8: the level-stats derivation is a pure read-side aggregation. For each
level L from 1 to the flow's length, the approved count at L is the number of
submissions whose approvalHistory contains an entry with that level and
status APPROVED; the completion rate is the ratio of approved submissions
over all submissions (reported as a rounded percentage); and the average
approval duration is the mean of approvedAt - submittedAt over approved
submissions only. -/
theorem analytics_matches_spec (subs : List Submission) (totalLevels : Nat) :
    levelStats subs totalLevels =
      (List.range totalLevels).map
        (fun i => (i + 1, specApprovedCountAtLevel subs (i + 1), subs.length)) ∧
    completionRate subs = jsRound (100 * specCompletionRatio subs) ∧
    avgApprovalTimeMs subs = specMeanDuration subs := by
  have hcount : ∀ L, approvedCountAtLevel subs L = specApprovedCountAtLevel subs L := by
    intro L
    rw [specApprovedCountAtLevel, List.countP_eq_length_filter]
    unfold approvedCountAtLevel
    congr 1
    apply List.filter_congr
    intro x _
    cases hb : x.approvalHistory.any (fun h => h.level == L && h.status == "APPROVED") with
    | false =>
      have hno : ¬ ∃ h ∈ x.approvalHistory, h.level = L ∧ h.status = "APPROVED" := by
        intro ⟨e, he, h1, h2⟩
        have : x.approvalHistory.any (fun h => h.level == L && h.status == "APPROVED") = true :=
          List.any_eq_true.mpr ⟨e, he, by simp [h1, h2]⟩
        rw [hb] at this
        exact Bool.false_ne_true this
      simp [hno]
    | true =>
      have hyes : ∃ h ∈ x.approvalHistory, h.level = L ∧ h.status = "APPROVED" := by
        obtain ⟨e, he, hpe⟩ := List.any_eq_true.mp hb
        exact ⟨e, he, by simpa using hpe⟩
      simp [hyes]
  refine ⟨?_, ?_, ?_⟩
  · unfold levelStats
    have hfun : (fun i => (i + 1, approvedCountAtLevel subs (i + 1), subs.length)) =
        (fun i => (i + 1, specApprovedCountAtLevel subs (i + 1), subs.length)) :=
      funext fun i => by rw [hcount]
    rw [hfun]
  · by_cases h : subs.length > 0
    · simp only [completionRate, if_pos h, specCompletionRatio]
      rw [mul_comm]
    · have h0 : subs.length = 0 := by omega
      simp [completionRate, h, specCompletionRatio, h0, jsRound]
      norm_num
  · unfold avgApprovalTimeMs specMeanDuration specDurations
    by_cases h : (approvedWithTimestamps subs).length > 0
    · simp only [if_pos h, List.length_map]
      congr 1
      rw [Int.cast_list_sum, List.map_map]
      apply congrArg List.sum
      apply List.map_congr_left
      intro x _
      simp [Function.comp]
    · have h0 : (approvedWithTimestamps subs).length = 0 := by omega
      have hnil : approvedWithTimestamps subs = [] := List.length_eq_zero.mp h0
      simp [h, hnil]

end GenBeta
